import Mathlib

/-!
Verification of the Vitosha parking pipeline against its specification.

The development shallowly embeds the Python scripts of the repository:

- scripts/cadaster_to_geojson.py : mojibake heuristic, encoding-fallback
  reader, hard Cyrillic repair pass;
- scripts/clip_and_clean_vitosha.py : column selection with missing-column
  check;
- scripts/vitosha_analytics.py : base_cadnum, needed_places, per-parcel
  statistics and the left join onto buildings;
- scripts/streetParkingPlace.py : edge filtering by length and capacity and
  the slot-generation loop.

Machine floats of the source are modelled as rationals; Python string values
that may also be None or a non-string (pandas NaN cells) are modelled by
small inductive types.  Geometry, file IO and the external geospatial
libraries are out of scope, as the specification declares them external.
-/

/-! ## Mojibake heuristic (cadaster_to_geojson.py, _looks_mojibake)

Python: bad = set("ÐÑðñŽžŒœ�¿½"); return text and sum(c in bad for c in
text[:40]) > 3.  An empty string is falsy, so the function yields a falsy
value for it; for non-empty text it yields the boolean.
-/

def badChars : List Char := ['Ð', 'Ñ', 'ð', 'ñ', 'Ž', 'ž', 'Œ', 'œ', '�', '¿', '½']

def markerCount (s : String) : Nat :=
  (s.toList.take 40).countP (fun c => badChars.contains c)

def looksMojibake (s : String) : Bool :=
  (s != "") && decide (3 < markerCount s)

/-! ## base_cadnum (vitosha_analytics.py)

Python: if not cadnum or not isinstance(cadnum, str): return "";
return ".".join(cadnum.split(".")[:3]).  The argument of the pandas apply
can be a string, None, or a non-string cell (NaN); `PyVal` covers those.
The split on "." is modelled character by character with the exact
semantics of the Python str.split: split("") is [""], and empty components
between consecutive dots are kept.
-/

inductive PyVal where
  | str (s : String)
  | noneVal
  | nonString
deriving DecidableEq

def splitDot : List Char → List (List Char)
  | [] => [[]]
  | c :: cs =>
    let rest := splitDot cs
    if c = '.' then [] :: rest
    else
      match rest with
      | [] => [[c]]
      | g :: gs => (c :: g) :: gs

def joinDot : List (List Char) → List Char
  | [] => []
  | [g] => g
  | g :: gs => g ++ '.' :: joinDot gs

def base_cadnum : PyVal → String
  | .str s => if s = "" then "" else String.mk (joinDot ((splitDot s.toList).take 3))
  | .noneVal => ""
  | .nonString => ""

/-! ## needed_places (vitosha_analytics.py)

Python: try: return 1 if float(area) < 90.0 else 2 except (TypeError,
ValueError): return 1.  The argument domain distinguishes a finite numeric
value, the float nan (float(nan) < 90.0 is False, so the else branch gives
2), None (float raises TypeError) and a non-numeric string (ValueError).
-/

inductive PyArea where
  | num (q : ℚ)
  | nan
  | noneVal
  | badStr
deriving DecidableEq

def needed_places : PyArea → Nat
  | .num q => if q < 90 then 1 else 2
  | .nan => 2
  | .noneVal => 1
  | .badStr => 1

/-! ## Theorems for the mojibake heuristic (claim C2) -/

theorem markerCount_eq (s : String) :
    markerCount s = (s.toList.take 40).countP (fun c => badChars.contains c) := rfl

/-- C2: for every non-empty string, _looks_mojibake classifies it as
corrupted exactly when strictly more than 3 characters of the fixed
corruption-marker set occur among its first 40 characters; a sample with
exactly 3 markers is clean and one with 4 markers is corrupted. -/
theorem looks_mojibake_spec (s : String) (h : s ≠ "") :
    (looksMojibake s = true ↔ 3 < markerCount s) ∧
    looksMojibake "ÐÑðабвгдежз" = false ∧ markerCount "ÐÑðабвгдежз" = 3 ∧
    looksMojibake "ÐÑðñабвгдеж" = true ∧ markerCount "ÐÑðñабвгдеж" = 4 := by
  refine ⟨?_, by decide, by decide, by decide, by decide⟩
  have hb : (s != "") = true := by
    simpa [bne_iff_ne] using h
  simp [looksMojibake, hb]

theorem looks_mojibake_witness :
    looksMojibake "ÐÑðñабвгдеж" = true :=
  (looks_mojibake_spec "ÐÑðñабвгдеж" (by decide)).1.mpr (by decide)

/-! ## Theorems for base_cadnum (claim C7) -/

theorem splitDot_no_dot (a : List Char) (ha : '.' ∉ a) : splitDot a = [a] := by
  induction a with
  | nil => rfl
  | cons c cs ih =>
    have hc : c ≠ '.' := fun hc => ha (hc ▸ List.mem_cons_self c cs)
    have hcs : '.' ∉ cs := fun h => ha (List.mem_cons_of_mem c h)
    simp [splitDot, hc, ih hcs]

theorem splitDot_append_dot (a rest : List Char) (ha : '.' ∉ a) :
    splitDot (a ++ '.' :: rest) = a :: splitDot rest := by
  induction a with
  | nil => simp [splitDot]
  | cons c cs ih =>
    have hc : c ≠ '.' := fun hc => ha (hc ▸ List.mem_cons_self c cs)
    have hcs : '.' ∉ cs := fun h => ha (List.mem_cons_of_mem c h)
    have hrest := ih hcs
    simp only [List.cons_append, splitDot, if_neg hc]
    rw [show cs.append ('.' :: rest) = cs ++ '.' :: rest from rfl, hrest]

/-- C7: base_cadnum joins the first three dot-delimited components of a
string argument, and returns the empty string for an empty string, for
None and for a non-string value, raising no exception (the embedding is a
total function).  The general component is stated for an argument with at
least three dot-separated components; the listed concrete cases follow the
spec examples. -/
theorem base_cadnum_spec (a b c d : List Char)
    (ha : '.' ∉ a) (hb : '.' ∉ b) (hc : '.' ∉ c) :
    base_cadnum (.str (String.mk (a ++ '.' :: b ++ '.' :: c ++ '.' :: d))) =
      String.mk (a ++ '.' :: b ++ '.' :: c) ∧
    base_cadnum (.str "68134.905.1006.1.3") = "68134.905.1006" ∧
    base_cadnum (.str "") = "" ∧
    base_cadnum .noneVal = "" ∧
    base_cadnum .nonString = "" := by
  refine ⟨?_, by decide, by decide, rfl, rfl⟩
  have hnil : a ++ '.' :: b ++ '.' :: c ++ '.' :: d ≠ [] := by
    intro h
    have := congrArg List.length h
    simp at this
  have hsplit :
      splitDot (a ++ '.' :: b ++ '.' :: c ++ '.' :: d) =
        a :: b :: c :: splitDot d := by
    rw [show a ++ '.' :: b ++ '.' :: c ++ '.' :: d =
          a ++ '.' :: (b ++ '.' :: (c ++ '.' :: d)) by simp]
    rw [splitDot_append_dot a _ ha, splitDot_append_dot b _ hb,
      splitDot_append_dot c _ hc]
  have hs : (String.mk (a ++ '.' :: b ++ '.' :: c ++ '.' :: d)) ≠ "" := by
    simp [String.ext_iff, hnil]
  simp only [base_cadnum, if_neg hs]
  rw [show String.toList (String.mk (a ++ '.' :: b ++ '.' :: c ++ '.' :: d)) =
        a ++ '.' :: b ++ '.' :: c ++ '.' :: d from rfl]
  rw [hsplit]
  simp [joinDot, List.take]

theorem base_cadnum_witness :
    base_cadnum
        (.str (String.mk (['a', 'b'] ++ '.' :: ['c'] ++ '.' :: ['d'] ++ '.' :: ['e']))) =
      String.mk (['a', 'b'] ++ '.' :: ['c'] ++ '.' :: ['d']) :=
  (base_cadnum_spec ['a', 'b'] ['c'] ['d'] ['e'] (by decide) (by decide) (by decide)).1

/-! ## Theorems for needed_places (claim C8) -/

/-- C8: needed_places returns 1 when the area converts to a number strictly
below 90 and 2 when it is 90 or more; for None (TypeError) and a
non-numeric string (ValueError) it returns the defensive default 1 and
raises nothing (the embedding is total); the literal 89.9 of the spec is
the rational 899/10. -/
theorem needed_places_spec (q : ℚ) :
    (q < 90 → needed_places (.num q) = 1) ∧
    (90 ≤ q → needed_places (.num q) = 2) ∧
    needed_places .noneVal = 1 ∧
    needed_places .badStr = 1 ∧
    needed_places (.num (899 / 10)) = 1 ∧
    needed_places (.num 90) = 2 := by
  refine ⟨fun h => by simp [needed_places, h], fun h => ?_, rfl, rfl, ?_, ?_⟩
  · simp [needed_places, not_lt.mpr h]
  · have : (899 / 10 : ℚ) < 90 := by norm_num
    simp [needed_places, this]
  · norm_num [needed_places]

theorem needed_places_witness :
    needed_places (.num 50) = 1 :=
  (needed_places_spec 50).1 (by decide)

/-! ## Parcel statistics (vitosha_analytics.py, compute_parcel_stats)

A unit row carries the cadnum cell, the apptype cell and the area cell.
The pandas mask units["apptype"].str.contains(term, na=False, case=False)
is a case-insensitive substring test that is False on a missing cell; the
terms are Cyrillic, so case folding is modelled on the basic Cyrillic
range (U+0410 to U+042F and Ё) plus ASCII, which covers every character the
two fixed vocabulary terms can meet.
-/

structure CadUnit where
  cadnum : PyVal
  apptype : PyVal
  area : PyArea
deriving DecidableEq

def lowerRu (c : Char) : Char :=
  if 'А' ≤ c ∧ c ≤ 'Я' then Char.ofNat (c.toNat + 32)
  else if c = 'Ё' then 'ё'
  else c.toLower

def containsTermCI (hay term : String) : Bool :=
  let h := hay.toList.map lowerRu
  let t := term.toList.map lowerRu
  h.tails.any (fun suf => t.isPrefixOf suf)

def matchesType (term : String) (v : PyVal) : Bool :=
  match v with
  | .str s => containsTermCI s term
  | _ => false

def parcel_id (u : CadUnit) : String := base_cadnum u.cadnum

def isApartment (u : CadUnit) : Bool := matchesType "Жилище" u.apptype

def isGarage (u : CadUnit) : Bool := matchesType "Гараж" u.apptype

/-- Keys of the aggregated statistics table: the parcel ids that occur in
the apartment group or in the garage group (the demand series is grouped
over the apartment subset, so its keys add nothing).  pandas sorts group
keys; key order is irrelevant to every property below, so the embedding
keeps the dedup order. -/
def statKeys (units : List CadUnit) : List String :=
  (((units.filter isApartment).map parcel_id) ++
    ((units.filter isGarage).map parcel_id)).dedup

def apartmentCount (units : List CadUnit) (p : String) : Nat :=
  (units.filter isApartment).countP (fun u => decide (parcel_id u = p))

def garageCount (units : List CadUnit) (p : String) : Nat :=
  (units.filter isGarage).countP (fun u => decide (parcel_id u = p))

def demandSum (units : List CadUnit) (p : String) : Nat :=
  (((units.filter isApartment).filter (fun u => decide (parcel_id u = p))).map
    (fun u => needed_places u.area)).sum

structure ParcelStats where
  cadnum : String
  num_apartments : Nat
  num_garages : Nat
  sum_needed_place : Nat
  sum_parking_place : Nat
deriving DecidableEq

/-- One output row of compute_parcel_stats: the group sizes and the demand
sum are aligned by pd.concat(axis=1) over the union of the group keys and
missing entries become 0 (fillna), which is exactly the count over an
absent key; the supply column is the row-wise max of the two counts. -/
def mkParcelStats (units : List CadUnit) (p : String) : ParcelStats :=
  { cadnum := p
    num_apartments := apartmentCount units p
    num_garages := garageCount units p
    sum_needed_place := demandSum units p
    sum_parking_place := max (apartmentCount units p) (garageCount units p) }

def compute_parcel_stats (units : List CadUnit) : List ParcelStats :=
  (statKeys units).map (mkParcelStats units)

/-- The concrete parcel of the spec example: three apartments with areas
50, 95 and 120 and one garage, all on base parcel 68134.905.1006. -/
def exampleUnits : List CadUnit :=
  [ ⟨.str "68134.905.1006.1.1", .str "Жилище", .num 50⟩,
    ⟨.str "68134.905.1006.1.2", .str "Жилище", .num 95⟩,
    ⟨.str "68134.905.1006.1.3", .str "Жилище", .num 120⟩,
    ⟨.str "68134.905.1006.2.1", .str "Гараж", .num 20⟩ ]

/-- C3: every row of compute_parcel_stats carries, for its base parcel id,
the count of units whose type contains the apartment term, the count of
those containing the garage term (both case-insensitive), the sum of
needed_places over the areas of that parcel apartments, and a supply equal
to max(num_apartments, num_garages), not to their sum; the spec example
with three apartments (areas 50, 95, 120) and one garage evaluates to
(3, 1, 5, 3). -/
theorem compute_parcel_stats_spec (units : List CadUnit) :
    (∀ r ∈ compute_parcel_stats units,
      r.num_apartments =
        units.countP (fun u => decide (parcel_id u = r.cadnum) && isApartment u) ∧
      r.num_garages =
        units.countP (fun u => decide (parcel_id u = r.cadnum) && isGarage u) ∧
      r.sum_needed_place =
        ((units.filter (fun u => decide (parcel_id u = r.cadnum) && isApartment u)).map
          (fun u => needed_places u.area)).sum ∧
      r.sum_parking_place = max r.num_apartments r.num_garages) ∧
    compute_parcel_stats exampleUnits =
      [{ cadnum := "68134.905.1006", num_apartments := 3, num_garages := 1,
         sum_needed_place := 5, sum_parking_place := 3 }] := by
  refine ⟨?_, by decide⟩
  intro r hr
  obtain ⟨p, hp, rfl⟩ := List.mem_map.mp hr
  refine ⟨?_, ?_, ?_, rfl⟩
  · simp [mkParcelStats, apartmentCount, List.countP_filter]
  · simp [mkParcelStats, garageCount, List.countP_filter]
  · simp [mkParcelStats, demandSum, List.filter_filter]

/-! ## Analytics left join (vitosha_analytics.py, main)

The buildings layer gains a parcel_id column (base_cadnum of the cadnum
cell) and is merged left onto the statistics table; a building with
several matching statistics rows would be duplicated by the merge, which
the flatMap models, and a building with none receives NaN which the
fillna(0).astype(int) pass turns into the integer 0 in each of the four
numeric columns. -/

structure BuildingRow where
  cadnum : PyVal
deriving DecidableEq

structure EnrichedRow where
  cadnum : PyVal
  num_apartments : Nat
  num_garages : Nat
  sum_parking_place : Nat
  sum_needed_place : Nat
deriving DecidableEq

def zeroFillRow (b : BuildingRow) : EnrichedRow := ⟨b.cadnum, 0, 0, 0, 0⟩

def joinedRow (b : BuildingRow) (r : ParcelStats) : EnrichedRow :=
  ⟨b.cadnum, r.num_apartments, r.num_garages, r.sum_parking_place, r.sum_needed_place⟩

def joinBucket (stats : List ParcelStats) (b : BuildingRow) : List EnrichedRow :=
  match stats.filter (fun r => decide (r.cadnum = base_cadnum b.cadnum)) with
  | [] => [zeroFillRow b]
  | ms => ms.map (joinedRow b)

def analytics_join (buildings : List BuildingRow) (stats : List ParcelStats) :
    List EnrichedRow :=
  buildings.flatMap (joinBucket stats)

theorem filter_key_length_le {α β : Type} [DecidableEq β] (f : α → β) (x : β) :
    ∀ l : List α, (l.map f).Nodup →
      (l.filter (fun r => decide (f r = x))).length ≤ 1 := by
  intro l
  induction l with
  | nil => simp
  | cons a t ih =>
    intro h
    simp only [List.map_cons, List.nodup_cons] at h
    rw [List.filter_cons]
    by_cases hax : f a = x
    · have ht : t.filter (fun r => decide (f r = x)) = [] := by
        rw [List.filter_eq_nil_iff]
        intro r hr hfr
        exact h.1 (List.mem_map.mpr ⟨r, hr, by rw [of_decide_eq_true hfr, hax]⟩)
      simp [hax, ht]
    · simpa [hax] using ih h.2

theorem sum_map_ones {α : Type} (g : α → Nat) :
    ∀ l : List α, (∀ b ∈ l, g b = 1) → (l.map g).sum = l.length := by
  intro l
  induction l with
  | nil => simp
  | cons a t ih =>
    intro h
    simp [h a (List.mem_cons_self a t),
      ih (fun b hb => h b (List.mem_cons_of_mem a hb)), Nat.add_comm]

theorem compute_parcel_stats_keys (units : List CadUnit) :
    (compute_parcel_stats units).map ParcelStats.cadnum = statKeys units := by
  rw [compute_parcel_stats, List.map_map]
  rw [show (ParcelStats.cadnum ∘ mkParcelStats units) = id from rfl]
  exact List.map_id _

theorem statKeys_nodup (units : List CadUnit) : (statKeys units).Nodup :=
  List.nodup_dedup _

theorem joinBucket_length (units : List CadUnit) (b : BuildingRow) :
    (joinBucket (compute_parcel_stats units) b).length = 1 := by
  have hnd : ((compute_parcel_stats units).map ParcelStats.cadnum).Nodup := by
    rw [compute_parcel_stats_keys]
    exact statKeys_nodup units
  have hle :=
    filter_key_length_le ParcelStats.cadnum (base_cadnum b.cadnum) _ hnd
  unfold joinBucket
  cases hm : (compute_parcel_stats units).filter
      (fun r => decide (r.cadnum = base_cadnum b.cadnum)) with
  | nil => rfl
  | cons m ms =>
    rw [hm] at hle
    have hms : ms.length = 0 := by simpa using hle
    simp [hms]

/-- C6: after the analytics left join over the statistics of
compute_parcel_stats, every input building yields exactly one output row;
a building whose base parcel id matches no statistics row carries the
integer 0 (never a null) in all four numeric fields, and a building with
a matching row carries the values of that aggregate. -/
theorem analytics_join_spec (buildings : List BuildingRow) (units : List CadUnit) :
    (analytics_join buildings (compute_parcel_stats units)).length = buildings.length ∧
    (∀ b ∈ buildings,
      (∀ r ∈ compute_parcel_stats units, r.cadnum ≠ base_cadnum b.cadnum) →
        zeroFillRow b ∈ analytics_join buildings (compute_parcel_stats units)) ∧
    (∀ b ∈ buildings, ∀ r ∈ compute_parcel_stats units,
      r.cadnum = base_cadnum b.cadnum →
        joinedRow b r ∈ analytics_join buildings (compute_parcel_stats units)) := by
  refine ⟨?_, ?_, ?_⟩
  · rw [analytics_join, List.length_flatMap]
    exact sum_map_ones _ buildings (fun b _ => joinBucket_length units b)
  · intro b hb hnone
    have hf : (compute_parcel_stats units).filter
        (fun r => decide (r.cadnum = base_cadnum b.cadnum)) = [] := by
      rw [List.filter_eq_nil_iff]
      intro r hr hdec
      exact hnone r hr (of_decide_eq_true hdec)
    exact List.mem_flatMap.mpr ⟨b, hb, by simp [joinBucket, hf]⟩
  · intro b hb r hr hkey
    refine List.mem_flatMap.mpr ⟨b, hb, ?_⟩
    have hrf : r ∈ (compute_parcel_stats units).filter
        (fun r => decide (r.cadnum = base_cadnum b.cadnum)) :=
      List.mem_filter.mpr ⟨hr, by simp [hkey]⟩
    unfold joinBucket
    cases hm : (compute_parcel_stats units).filter
        (fun r => decide (r.cadnum = base_cadnum b.cadnum)) with
    | nil =>
      rw [hm] at hrf
      cases hrf
    | cons m ms =>
      rw [hm] at hrf
      exact List.mem_map_of_mem (joinedRow b) hrf

/-! ## Street capacity synthesizer (streetParkingPlace.py)

Edge lengths are metres, modelled as rationals; the Python floor division
length_m // CAR_SLOT followed by astype(int) is the mathematical floor.
An edge survives the dataframe filter exactly when its length is at most
MAX_SEGMENT_LENGTH and its capacity lies between 1 and MAX_CAPACITY; a
failing edge is dropped from the frame, never truncated. -/

def CAR_SLOT : ℚ := 5

def CAR_LENGTH : ℚ := 9 / 2

def BUFFER_GAP : ℚ := 1 / 2

def MAX_SEGMENT_LENGTH : ℚ := 100

def MAX_CAPACITY : ℤ := 14

def capacity (len : ℚ) : ℤ := ⌊len / CAR_SLOT⌋

def keepEdge (len : ℚ) : Bool :=
  decide (len ≤ MAX_SEGMENT_LENGTH) && decide (capacity len ≤ MAX_CAPACITY) &&
    decide (1 ≤ capacity len)

def filter_edges (lens : List ℚ) : List ℚ := lens.filter keepEdge

/-- C4: an edge is kept by the street filter exactly when its length is at
most 100 and its capacity floor(length / 5) lies in [1, 14]; an edge that
fails a bound is excluded entirely (it does not appear in the output at
all); a segment of length 12 has capacity 2 and a segment of capacity 0 is
excluded. -/
theorem street_edges_filter_spec (lens : List ℚ) (len : ℚ) :
    (len ∈ filter_edges lens ↔
      len ∈ lens ∧ len ≤ 100 ∧ 1 ≤ ⌊len / 5⌋ ∧ ⌊len / 5⌋ ≤ 14) ∧
    capacity 12 = 2 ∧
    capacity 3 = 0 ∧
    filter_edges [12, 3] = [12] := by
  have h12 : capacity 12 = 2 := by norm_num [capacity, CAR_SLOT]
  have h3 : capacity 3 = 0 := by norm_num [capacity, CAR_SLOT]
  refine ⟨?_, h12, h3, ?_⟩
  · rw [filter_edges, List.mem_filter]
    constructor
    · rintro ⟨hm, hk⟩
      simp only [keepEdge, Bool.and_eq_true, decide_eq_true_iff, capacity,
        CAR_SLOT, MAX_SEGMENT_LENGTH, MAX_CAPACITY] at hk
      exact ⟨hm, hk.1.1, hk.2, hk.1.2⟩
    · rintro ⟨hm, h1, h2, h4⟩
      refine ⟨hm, ?_⟩
      simp only [keepEdge, Bool.and_eq_true, decide_eq_true_iff, capacity,
        CAR_SLOT, MAX_SEGMENT_LENGTH, MAX_CAPACITY]
      exact ⟨⟨h1, h4⟩, h2⟩
  · have hk12 : keepEdge 12 = true := by
      simp only [keepEdge, Bool.and_eq_true, decide_eq_true_iff,
        MAX_SEGMENT_LENGTH, MAX_CAPACITY, h12]
      refine ⟨⟨by norm_num, by norm_num⟩, by norm_num⟩
    have hk3 : keepEdge 3 = false := by
      simp only [keepEdge, MAX_SEGMENT_LENGTH, MAX_CAPACITY, h3]
      simp
    simp [filter_edges, List.filter_cons, hk12, hk3]

theorem street_edges_filter_witness : (12 : ℚ) ∈ filter_edges [12, 3] :=
  (street_edges_filter_spec [12, 3] 12).1.mpr
    ⟨by simp, by norm_num, by norm_num, by norm_num⟩

/-! ## Slot generation loop (streetParkingPlace.py, cars)

For one line part of length L the loop runs i over range(int(L // CAR_SLOT)),
places a slot from i * CAR_SLOT + BUFFER_GAP / 2 to that plus
CAR_LENGTH - BUFFER_GAP and keeps it only when its end does not pass the
part end; the pair of interpolation distances stands for the emitted slot
geometry. -/

def n_cars (L : ℚ) : ℕ := (⌊L / CAR_SLOT⌋).toNat

def slot_start (i : ℕ) : ℚ := i * CAR_SLOT + BUFFER_GAP / 2

def slot_end (i : ℕ) : ℚ := slot_start i + CAR_LENGTH - BUFFER_GAP

def slots_for_part (L : ℚ) : List (ℚ × ℚ) :=
  (List.range (n_cars L)).filterMap (fun i =>
    if slot_end i ≤ L then some (slot_start i, slot_end i) else none)

theorem slot_end_le (L : ℚ) (i : ℕ) (hi : i < n_cars L) : slot_end i ≤ L := by
  have h1 : (i : ℤ) < ⌊L / CAR_SLOT⌋ := by
    rw [n_cars] at hi
    exact Int.lt_toNat.mp hi
  have h2 : ((i : ℚ) + 1) ≤ ((⌊L / CAR_SLOT⌋ : ℤ) : ℚ) := by
    exact_mod_cast h1
  have h3 : ((⌊L / CAR_SLOT⌋ : ℤ) : ℚ) ≤ L / CAR_SLOT := Int.floor_le _
  have h4 : ((i : ℚ) + 1) * 5 ≤ L := by
    have hc : CAR_SLOT = (5 : ℚ) := rfl
    rw [hc] at h2 h3
    have h5 : ((i : ℚ) + 1) ≤ L / 5 := le_trans h2 h3
    linarith
  simp only [slot_end, slot_start, CAR_LENGTH, BUFFER_GAP, CAR_SLOT]
  linarith

/-- C10: in the slot loop the guard end_dist ≤ length never rejects a
candidate: every slot index below n_cars L = floor(L / 5) satisfies the
guard, so exactly floor(L / 5) slots are emitted for the part and each
emitted slot lies entirely inside the part. -/
theorem slots_for_part_spec (L : ℚ) (h : 0 ≤ L) :
    (∀ i < n_cars L, slot_end i ≤ L) ∧
    ((n_cars L : ℤ) = ⌊L / 5⌋) ∧
    (slots_for_part L).length = n_cars L ∧
    (∀ p ∈ slots_for_part L, 0 ≤ p.1 ∧ p.1 ≤ p.2 ∧ p.2 ≤ L) := by
  refine ⟨fun i hi => slot_end_le L i hi, ?_, ?_, ?_⟩
  · rw [n_cars]
    rw [show CAR_SLOT = (5 : ℚ) from rfl]
    exact Int.toNat_of_nonneg
      (Int.floor_nonneg.mpr (div_nonneg h (by norm_num)))
  · have hcong : ∀ i ∈ List.range (n_cars L),
        (if slot_end i ≤ L then some (slot_start i, slot_end i) else none) =
          (some ∘ fun j => (slot_start j, slot_end j)) i := by
      intro i hi
      exact if_pos (slot_end_le L i (List.mem_range.mp hi))
    rw [slots_for_part, List.filterMap_congr hcong, List.filterMap_eq_map,
      List.length_map, List.length_range]
  · intro p hp
    rw [slots_for_part] at hp
    obtain ⟨i, hi, hfi⟩ := List.mem_filterMap.mp hp
    rw [if_pos (slot_end_le L i (List.mem_range.mp hi))] at hfi
    obtain rfl : (slot_start i, slot_end i) = p := Option.some.inj hfi
    refine ⟨?_, ?_, slot_end_le L i (List.mem_range.mp hi)⟩
    · simp only [slot_start, BUFFER_GAP, CAR_SLOT]
      positivity
    · simp only [slot_end, slot_start, CAR_LENGTH, BUFFER_GAP, CAR_SLOT]
      linarith [Nat.cast_nonneg (α := ℚ) i]

theorem slots_for_part_witness : (slots_for_part 12).length = 2 := by
  have h := (slots_for_part_spec 12 (by decide)).2.2.1
  rw [h]
  norm_num [n_cars, CAR_SLOT]
  decide

/-! ## Encoding fallback reader (cadaster_to_geojson.py, _read_with_fallback)

The loop tries the fixed candidate list ENCODINGS in order.  Reading one
file under one candidate either raises a parse exception (recorded into
last_err) or yields a frame together with the first non-null string cell,
the sample; a parsed frame whose sample trips the heuristic is skipped.
When the loop exhausts, the code runs raise last_err; last_err may still
be None, and raise None produces a TypeError, modelled by
Except.error Option.none, while raise of a recorded error e is
Except.error (some e). -/

inductive Encoding where
  | utf8default
  | cp1251
  | cp1250
  | latin1
deriving DecidableEq

def ENCODINGS : List Encoding := [.utf8default, .cp1251, .cp1250, .latin1]

inductive ReadAttempt (ε α : Type) where
  | fail (e : ε)
  | parsed (sample : Option String) (frame : α)
deriving DecidableEq

def sampleBad : Option String → Bool
  | Option.none => false
  | some s => looksMojibake s

def failOrBad {ε α : Type} : ReadAttempt ε α → Bool
  | .fail _ => true
  | .parsed sample _ => sampleBad sample

def readGo {ε α : Type} (tryRead : Encoding → ReadAttempt ε α) :
    List Encoding → Option ε → Except (Option ε) α
  | [], last => Except.error last
  | enc :: rest, last =>
    match tryRead enc with
    | .fail e => readGo tryRead rest (some e)
    | .parsed sample frame =>
      if sampleBad sample then readGo tryRead rest last else Except.ok frame

def read_with_fallback {ε α : Type} (tryRead : Encoding → ReadAttempt ε α) :
    Except (Option ε) α :=
  readGo tryRead ENCODINGS Option.none

def parseErrors {ε α : Type} (tryRead : Encoding → ReadAttempt ε α)
    (encs : List Encoding) : List ε :=
  encs.filterMap (fun enc =>
    match tryRead enc with
    | .fail e => some e
    | .parsed _ _ => Option.none)

def lastOr {ε : Type} (l : List ε) (acc : Option ε) : Option ε :=
  match l.getLast? with
  | some e => some e
  | Option.none => acc

theorem lastOr_cons {ε : Type} (e : ε) (l : List ε) (acc : Option ε) :
    lastOr (e :: l) acc = lastOr l (some e) := by
  cases l with
  | nil => rfl
  | cons x xs =>
    simp only [lastOr, List.getLast?_cons_cons]
    cases hl : (x :: xs).getLast? with
    | none => exact absurd hl (by simp)
    | some y => rfl

theorem readGo_exhausted {ε α : Type} (tryRead : Encoding → ReadAttempt ε α) :
    ∀ (encs : List Encoding) (acc : Option ε),
      (∀ enc ∈ encs, failOrBad (tryRead enc) = true) →
      readGo tryRead encs acc =
        Except.error (lastOr (parseErrors tryRead encs) acc) := by
  intro encs
  induction encs with
  | nil =>
    intro acc h
    rfl
  | cons enc rest ih =>
    intro acc h
    have henc := h enc (List.mem_cons_self enc rest)
    have hrest := fun e he => h e (List.mem_cons_of_mem enc he)
    cases ha : tryRead enc with
    | fail e =>
      have hstep : readGo tryRead (enc :: rest) acc = readGo tryRead rest (some e) := by
        simp [readGo, ha]
      have hpe : parseErrors tryRead (enc :: rest) = e :: parseErrors tryRead rest := by
        simp [parseErrors, List.filterMap_cons, ha]
      rw [hstep, ih (some e) hrest, hpe, lastOr_cons]
    | parsed sample frame =>
      have hbad : sampleBad sample = true := by
        rw [ha] at henc
        simpa [failOrBad] using henc
      have hstep : readGo tryRead (enc :: rest) acc = readGo tryRead rest acc := by
        simp [readGo, ha, hbad]
      have hpe : parseErrors tryRead (enc :: rest) = parseErrors tryRead rest := by
        simp [parseErrors, List.filterMap_cons, ha]
      rw [hstep, ih acc hrest, hpe]

/-- C1 (amended): when every candidate encoding fails to parse or parses
to a sample that trips the mojibake heuristic, _read_with_fallback never
returns a collection and executes raise last_err; the raised value is the
most recent parse error when at least one candidate failed to parse, and
when every candidate parsed (all samples corrupted) last_err is still
None, so the raise statement itself produces a TypeError that carries no
parse error, modelled as Except.error Option.none. -/
theorem read_with_fallback_exhausted {ε α : Type} (tryRead : Encoding → ReadAttempt ε α)
    (hall : ∀ enc ∈ ENCODINGS, failOrBad (tryRead enc) = true) :
    (∀ frame : α, read_with_fallback tryRead ≠ Except.ok frame) ∧
    read_with_fallback tryRead =
      Except.error (lastOr (parseErrors tryRead ENCODINGS) Option.none) ∧
    (parseErrors tryRead ENCODINGS = [] →
      read_with_fallback tryRead = Except.error Option.none) := by
  have hfb : read_with_fallback tryRead =
      Except.error (lastOr (parseErrors tryRead ENCODINGS) Option.none) :=
    readGo_exhausted tryRead ENCODINGS Option.none hall
  refine ⟨?_, hfb, ?_⟩
  · intro frame hok
    rw [hfb] at hok
    cases hok
  · intro hpe
    rw [hfb, hpe]
    rfl

def allCorruptRead : Encoding → ReadAttempt Nat Unit :=
  fun _ => .parsed (some "ÐÑðñ") ()

def allCorruptCheck : Bool :=
  ENCODINGS.all (fun enc => failOrBad (allCorruptRead enc))

/-- C1 counterexample: a source file that parses under all four candidate
encodings while every sample trips the heuristic satisfies the antecedent
of the claim, yet no parse error exists to be carried: the loop reaches
raise last_err with last_err = None, so the raised error (a TypeError from
raise None) carries no underlying parse error. -/
theorem read_with_fallback_counterexample :
    allCorruptCheck = true ∧
    parseErrors allCorruptRead ENCODINGS = [] ∧
    read_with_fallback allCorruptRead = Except.error Option.none :=
  ⟨rfl, rfl, rfl⟩

def mixedRead : Encoding → ReadAttempt Nat Unit
  | .utf8default => .fail 7
  | _ => .parsed (some "ÐÑðñ") ()

theorem read_with_fallback_witness :
    read_with_fallback mixedRead = Except.error (some 7) := by
  have h := (read_with_fallback_exhausted mixedRead (by decide)).2.1
  rw [h]
  rfl

/-! ## Column selection (clip_and_clean_vitosha.py, _clip_clean_save)

A frame is a list of named columns; the stage computes the configured
source keys missing from the clipped frame, raises a ValueError naming
that set when it is non-empty, and otherwise selects the configured
columns plus geometry and renames them. -/

def colsKeys (colsMap : List (String × String)) : List String :=
  colsMap.map Prod.fst

def missingCols (colsMap : List (String × String)) (columns : List String) :
    List String :=
  (colsKeys colsMap).filter (fun c => decide (c ∉ columns))

def lookupCol (frame : List (String × List String)) (c : String) : List String :=
  match frame.find? (fun kv => decide (kv.1 = c)) with
  | some kv => kv.2
  | Option.none => []

def clip_clean_save (colsMap : List (String × String))
    (frame : List (String × List String)) :
    Except (List String) (List (String × List String)) :=
  if missingCols colsMap (frame.map Prod.fst) ≠ [] then
    Except.error (missingCols colsMap (frame.map Prod.fst))
  else
    Except.ok ((colsMap.map (fun st => (st.2, lookupCol frame st.1))) ++
      [("geometry", lookupCol frame "geometry")])

/-- C5: when a configured source column is absent from the clipped frame
the stage fails with an error naming exactly the set of missing configured
columns and produces no output; when every configured column is present no
such error is raised and the renamed selection is produced. -/
theorem clip_missing_column_spec (colsMap : List (String × String))
    (frame : List (String × List String)) :
    (∀ c, c ∈ missingCols colsMap (frame.map Prod.fst) ↔
      (c ∈ colsKeys colsMap ∧ c ∉ frame.map Prod.fst)) ∧
    ((∃ c ∈ colsKeys colsMap, c ∉ frame.map Prod.fst) →
      clip_clean_save colsMap frame =
        Except.error (missingCols colsMap (frame.map Prod.fst))) ∧
    ((∀ c ∈ colsKeys colsMap, c ∈ frame.map Prod.fst) →
      clip_clean_save colsMap frame =
        Except.ok ((colsMap.map (fun st => (st.2, lookupCol frame st.1))) ++
          [("geometry", lookupCol frame "geometry")])) := by
  have hmem : ∀ c, c ∈ missingCols colsMap (frame.map Prod.fst) ↔
      (c ∈ colsKeys colsMap ∧ c ∉ frame.map Prod.fst) := by
    intro c
    simp [missingCols, List.mem_filter]
  refine ⟨hmem, ?_, ?_⟩
  · rintro ⟨c, hc, hnc⟩
    have hne : missingCols colsMap (frame.map Prod.fst) ≠ [] := by
      intro hnil
      have hinn := (hmem c).mpr ⟨hc, hnc⟩
      rw [hnil] at hinn
      cases hinn
    rw [clip_clean_save, if_pos hne]
  · intro hall
    have hnil : missingCols colsMap (frame.map Prod.fst) = [] := by
      apply List.eq_nil_iff_forall_not_mem.mpr
      intro c hcmem
      have hcc := (hmem c).mp hcmem
      exact hcc.2 (hall c hcc.1)
    rw [clip_clean_save, if_neg (fun hne => hne hnil)]

def demoCols : List (String × String) := [("cadnum", "cadnum"), ("AREA", "area")]

def demoFrame : List (String × List String) := [("cadnum", ["68134.905.1006.1.1"])]

theorem clip_missing_column_witness :
    clip_clean_save demoCols demoFrame = Except.error ["AREA"] := by
  have h := (clip_missing_column_spec demoCols demoFrame).2.1
    ⟨"AREA", by decide, by decide⟩
  rw [h]
  rw [show missingCols demoCols (demoFrame.map Prod.fst) = ["AREA"] from by decide]

/-! ## Hard Cyrillic repair (cadaster_to_geojson.py, _hard_fix_cyrillic, attempt)

The per-value repair tries the four encode/decode round-trip combinations
in order; one round-trip either raises UnicodeError, which the code
catches (modelled by Option.none), or yields a candidate string; the first
candidate that does not trip the heuristic is returned and otherwise the
original value is kept.  The byte-level codec tables live in the Python
standard library, outside this repository, so the round-trip is a
parameter of the embedding. -/

inductive Codec where
  | cp1251
  | utf8
  | latin1
deriving DecidableEq

def fixCombos : List (Codec × Codec) :=
  [(.cp1251, .utf8), (.utf8, .cp1251), (.latin1, .utf8), (.utf8, .latin1)]

def attemptGo (rt : Codec × Codec → String → Option String) (val : String) :
    List (Codec × Codec) → String
  | [] => val
  | c :: rest =>
    match rt c val with
    | Option.none => attemptGo rt val rest
    | some fixed =>
      if looksMojibake fixed then attemptGo rt val rest else fixed

def attempt (rt : Codec × Codec → String → Option String) (val : String) : String :=
  attemptGo rt val fixCombos

def goodResults (rt : Codec × Codec → String → Option String) (val : String)
    (combos : List (Codec × Codec)) : List String :=
  combos.filterMap (fun c =>
    match rt c val with
    | Option.none => Option.none
    | some fixed => if looksMojibake fixed then Option.none else some fixed)

theorem attemptGo_eq (rt : Codec × Codec → String → Option String) (val : String) :
    ∀ combos : List (Codec × Codec),
      attemptGo rt val combos = ((goodResults rt val combos).head?).getD val := by
  intro combos
  induction combos with
  | nil => rfl
  | cons c rest ih =>
    cases hc : rt c val with
    | none => simp [attemptGo, goodResults, List.filterMap_cons, hc, ih]
    | some fixed =>
      cases hb : looksMojibake fixed with
      | false => simp [attemptGo, goodResults, List.filterMap_cons, hc, hb]
      | true => simp [attemptGo, goodResults, List.filterMap_cons, hc, hb, ih]

/-- C9: the per-value repair returns the first round-trip result in the
fixed combination list that the mojibake heuristic no longer rejects,
skipping round-trips that raise UnicodeError; when no round-trip is
accepted the original value is returned unchanged; the embedding is a
total function, so no exception escapes the repair. -/
theorem attempt_spec (rt : Codec × Codec → String → Option String) (val : String) :
    attempt rt val = ((goodResults rt val fixCombos).head?).getD val ∧
    (goodResults rt val fixCombos = [] → attempt rt val = val) := by
  have h := attemptGo_eq rt val fixCombos
  refine ⟨h, fun hnil => ?_⟩
  exact h.trans (by rw [hnil]; rfl)

def demoRoundTrip : Codec × Codec → String → Option String :=
  fun c _ =>
    if c = (Codec.cp1251, Codec.utf8) then some "ÐÑðñÐÑ"
    else if c = (Codec.utf8, Codec.cp1251) then Option.none
    else if c = (Codec.latin1, Codec.utf8) then some "Жилище"
    else some "друго"

theorem attempt_witness : attempt demoRoundTrip "ÐÑÐÑÐÑ" = "Жилище" := by
  have h := (attempt_spec demoRoundTrip "ÐÑÐÑÐÑ").1
  rw [h]
  rfl

/-! ## Concrete witnesses for the analytics claims -/

theorem compute_parcel_stats_witness :
    (3 : Nat) = exampleUnits.countP
        (fun u => decide (parcel_id u = "68134.905.1006") && isApartment u) :=
  ((compute_parcel_stats_spec exampleUnits).1
    { cadnum := "68134.905.1006", num_apartments := 3, num_garages := 1,
      sum_needed_place := 5, sum_parking_place := 3 } (by decide)).1

def demoBuilding : BuildingRow := ⟨.str "68134.905.1006.5"⟩

theorem analytics_join_witness :
    joinedRow demoBuilding
        { cadnum := "68134.905.1006", num_apartments := 3, num_garages := 1,
          sum_needed_place := 5, sum_parking_place := 3 } ∈
      analytics_join [demoBuilding] (compute_parcel_stats exampleUnits) :=
  (analytics_join_spec [demoBuilding] exampleUnits).2.2 demoBuilding (by decide)
    { cadnum := "68134.905.1006", num_apartments := 3, num_garages := 1,
      sum_needed_place := 5, sum_parking_place := 3 } (by decide) (by decide)
